import Mathlib

/-!
Shallow embedding of the `smart-pointers` library (src/cell.rs, src/rc.rs,
src/refcell.rs) and proofs of the specification claims.

Modelling conventions:
* Rust interior mutability (`UnsafeCell`, `Cell`) becomes explicit state
  passing: every mutating method returns the updated value.
* A Rust panic (`unreachable!`) is modelled as a `none` / `.error` result:
  a fatal outcome with no recoverable continuation.
* `usize` is modelled as `Nat` with explicit wrapping arithmetic modulo
  `2 ^ 64`: the source's `n_references + 1` and `n_references - 1` are
  unchecked, so they wrap silently when overflow checks are not compiled
  in (Rust's default release semantics).
* The heap behind `Rc` is an explicit map from addresses to blocks plus a
  log of deallocation events, so "freed exactly once" is a statement about
  the log.
-/

namespace SmartPointers

/-! ## src/cell.rs : `Cell<T>` (the spec's SingleOwnerCell) -/

/-- `Cell<T>` from src/cell.rs: a single interior value.  `UnsafeCell<T>` is
modelled as a plain field; mutation returns the updated cell. -/
structure Cell (α : Type) where
  value : α
deriving DecidableEq, Repr

/-- `Cell::new`. -/
def Cell.new (v : α) : Cell α :=
  ⟨v⟩

/-- `Cell::set`: replaces the interior value unconditionally; total, never
fails. -/
def Cell.set (_ : Cell α) (v : α) : Cell α :=
  ⟨v⟩

/-- `Cell::get`: returns a copy of the interior value (Rust requires
`T: Copy`; in the pure embedding every value is duplicable). -/
def Cell.get (c : Cell α) : α :=
  c.value

/-! ## src/refcell.rs : `RefCell<T>` (the spec's DynamicBorrowCell) -/

/-- `RefState` from src/refcell.rs. -/
inductive RefState
  | Unused
  | Shared (n : Nat)
  | Exclusive
deriving DecidableEq, Repr

/-- `RefCell<T>` from src/refcell.rs: an `UnsafeCell` payload (modelled as a
plain field) plus a `Cell<RefState>` borrow tag. -/
structure RefCell (α : Type) where
  value : α
  state : Cell RefState
deriving DecidableEq, Repr

/-- `RefCell::new`: initial state `Unused`. -/
def RefCell.new (v : α) : RefCell α :=
  ⟨v, Cell.new RefState.Unused⟩

/-- `RefCell::borrow`.  The Rust method returns `Option<Ref<'_, T>>`; the
guard holds only a pointer back to the cell, so here it is a unit token and
the updated cell is returned alongside.  `None` is a denied borrow. -/
def RefCell.borrow (c : RefCell α) : Option Unit × RefCell α :=
  match c.state.get with
  | RefState.Unused => (some (), { c with state := c.state.set (RefState.Shared 1) })
  | RefState.Shared n => (some (), { c with state := c.state.set (RefState.Shared (n + 1)) })
  | RefState.Exclusive => (none, c)

/-- `RefCell::borrow_mut`, returning `Option<RefMut<'_, T>>` as a unit token
plus the updated cell. -/
def RefCell.borrow_mut (c : RefCell α) : Option Unit × RefCell α :=
  match c.state.get with
  | RefState.Unused => (some (), { c with state := c.state.set RefState.Exclusive })
  | RefState.Shared _ => (none, c)
  | RefState.Exclusive => (none, c)

/-- `<Ref as Drop>::drop`.  `none` models the `unreachable!` panic arms and
the `usize` underflow that the `Shared(0)` input would cause in `n - 1`
(fatal, never silently recovered).  Note the Rust match tries `Shared(1)`
before the general `Shared(n)`. -/
def Ref.drop (c : RefCell α) : Option (RefCell α) :=
  match c.state.get with
  | RefState.Unused => none
  | RefState.Shared 1 => some { c with state := c.state.set RefState.Unused }
  | RefState.Shared 0 => none
  | RefState.Shared (n + 2) => some { c with state := c.state.set (RefState.Shared (n + 1)) }
  | RefState.Exclusive => none

/-- `<RefMut as Drop>::drop`.  `none` models the `unreachable!` panic arms. -/
def RefMut.drop (c : RefCell α) : Option (RefCell α) :=
  match c.state.get with
  | RefState.Unused => none
  | RefState.Shared _ => none
  | RefState.Exclusive => some { c with state := c.state.set RefState.Unused }

/-- `<Ref as Deref>::deref`: reads the payload through the cell the guard
points back to. -/
def Ref.deref (c : RefCell α) : α :=
  c.value

/-- `<RefMut as Deref>::deref`. -/
def RefMut.deref (c : RefCell α) : α :=
  c.value

/-- `<RefMut as DerefMut>::deref_mut` followed by an assignment through the
returned mutable reference: replaces the payload. -/
def RefMut.write (c : RefCell α) (v : α) : RefCell α :=
  { c with value := v }

/-! ## src/rc.rs : `Rc<T>` (the spec's RefCountedBox) -/

/-- Largest value of Rust's `usize` (64-bit target). -/
def USIZE_MAX : Nat := 2 ^ 64 - 1

/-- Number of values of Rust's `usize`; unchecked `usize` arithmetic wraps
modulo this. -/
def USIZE_SIZE : Nat := 2 ^ 64

/-- `RcInner<T>` from src/rc.rs: the heap block holding the payload and the
reference count (a `Cell<usize>`). -/
structure RcInner (α : Type) where
  value : α
  references : Cell Nat
deriving DecidableEq, Repr

/-- The heap behind `Rc`: an address-indexed map of live blocks, the next
fresh address `Box::new` would return, and a log of deallocation events (one
entry per `Box::from_raw`-and-drop). -/
structure RcHeap (α : Type) where
  blocks : Nat → Option (RcInner α)
  next : Nat
  frees : List Nat

/-- The empty heap. -/
def RcHeap.empty (α : Type) : RcHeap α :=
  ⟨fun _ => none, 0, []⟩

/-- `Rc<T>`: a non-null raw pointer to an `RcInner` block, modelled as the
block's address. -/
structure Rc where
  inner : Nat
deriving DecidableEq, Repr

/-- The one fatal outcome: touching a deallocated block (a dangling-pointer
dereference, undefined behavior in the source).  Not a recoverable error
path of the API. -/
inductive RcError
  | useAfterFree
deriving DecidableEq, Repr

/-- `Rc::new`: allocates one fresh block holding `value` and a count
initialized to 1 (`Box::into_raw(Box::new(inner))`). -/
def Rc.new (v : α) (h : RcHeap α) : Rc × RcHeap α :=
  (⟨h.next⟩,
    ⟨Function.update h.blocks h.next (some ⟨v, Cell.new 1⟩), h.next + 1, h.frees⟩)

/-- `Rc::ptr_eq`: compares the raw block pointers, not the values. -/
def Rc.ptr_eq (rc1 rc2 : Rc) : Bool :=
  rc1.inner == rc2.inner

/-- `<Rc as Clone>::clone`: reads the count, writes back `count + 1`, and
returns a second pointer to the same block.  The addition is the source's
unchecked `n_references + 1`, so it wraps modulo `USIZE_SIZE`.
Dereferencing a dangling pointer is fatal. -/
def Rc.clone (r : Rc) (h : RcHeap α) : Except RcError (Rc × RcHeap α) :=
  match h.blocks r.inner with
  | none => Except.error RcError.useAfterFree
  | some inner =>
    let n := inner.references.get
    Except.ok (⟨r.inner⟩,
      { h with blocks := (Function.update h.blocks r.inner
          (some { inner with references := inner.references.set ((n + 1) % USIZE_SIZE) })) })

/-- `<Rc as Drop>::drop`: reads the count; at 1 it deallocates the block
(logging the free); otherwise it writes back `count - 1`.  The subtraction
is the source's unchecked `n_references - 1`: for a stored count below
`USIZE_SIZE`, `(n + USIZE_SIZE - 1) % USIZE_SIZE` is `n - 1` when `n ≥ 1`
and wraps to `USIZE_MAX` when `n = 0`. -/
def Rc.drop (r : Rc) (h : RcHeap α) : Except RcError (RcHeap α) :=
  match h.blocks r.inner with
  | none => Except.error RcError.useAfterFree
  | some inner =>
    let n := inner.references.get
    if n = 1 then
      Except.ok
        { h with blocks := Function.update h.blocks r.inner none,
                 frees := h.frees ++ [r.inner] }
    else
      Except.ok
        { h with blocks := (Function.update h.blocks r.inner
            (some { inner with references := inner.references.set ((n + USIZE_SIZE - 1) % USIZE_SIZE) })) }

/-- `<Rc as Deref>::deref`: reads the payload of the block; dangling
pointers have no value to read. -/
def Rc.deref (r : Rc) (h : RcHeap α) : Option α :=
  (h.blocks r.inner).map RcInner.value

/-! ### Traces of clone/drop operations against one block -/

/-- One client operation on a pointer instance: duplicate it, or destroy
it.  All instances of one allocation share the block's address, so a
history of operations against that block is just a list of tags. -/
inductive RcOp
  | clone
  | drop
deriving DecidableEq, Repr

/-- Number of clones in a trace. -/
def countClones : List RcOp → Nat
  | [] => 0
  | RcOp.clone :: ops => countClones ops + 1
  | RcOp.drop :: ops => countClones ops

/-- Number of drops in a trace. -/
def countDrops : List RcOp → Nat
  | [] => 0
  | RcOp.clone :: ops => countDrops ops
  | RcOp.drop :: ops => countDrops ops + 1

/-- The reference count after running a trace from count `c`. -/
def finalCount (c : Nat) : List RcOp → Nat
  | [] => c
  | RcOp.clone :: ops => finalCount (c + 1) ops
  | RcOp.drop :: ops => finalCount (c - 1) ops

/-- A trace is well-formed from count `c` when every operation acts on a
still-live instance of a still-live block: the count is at least 1 before
each operation (so the block has not been freed and some instance remains
to be cloned or dropped), and a clone never pushes the count past
`USIZE_MAX`. -/
def okTrace (c : Nat) : List RcOp → Bool
  | [] => true
  | RcOp.clone :: ops => decide (1 ≤ c) && decide (c < USIZE_MAX) && okTrace (c + 1) ops
  | RcOp.drop :: ops => decide (1 ≤ c) && okTrace (c - 1) ops

/-- Runs a trace of clone/drop operations against the block at `addr`. -/
def runOps (addr : Nat) : List RcOp → RcHeap α → Except RcError (RcHeap α)
  | [], h => Except.ok h
  | RcOp.clone :: ops, h =>
    match Rc.clone ⟨addr⟩ h with
    | Except.ok (_, h') => runOps addr ops h'
    | Except.error e => Except.error e
  | RcOp.drop :: ops, h =>
    match Rc.drop ⟨addr⟩ h with
    | Except.ok h' => runOps addr ops h'
    | Except.error e => Except.error e

/-! ### Client histories against one `RefCell` -/

/-- A client-visible system state: the cell together with how many shared
guards (`Ref`) and exclusive guards (`RefMut`) the client currently holds. -/
structure Sys (α : Type) where
  cell : RefCell α
  sharedGuards : Nat
  exclGuards : Nat
deriving DecidableEq, Repr

/-- The state right after `RefCell::new(v)`: no guard outstanding. -/
def initSys (v : α) : Sys α :=
  ⟨RefCell.new v, 0, 0⟩

/-- One client operation: request a borrow (of either kind, keeping the
guard if granted), release a held guard, or write through a held exclusive
guard. -/
inductive CellOp (α : Type)
  | borrow
  | borrowMut
  | dropShared
  | dropExcl
  | writeExcl (v : α)
deriving DecidableEq, Repr

/-- One step of a client history.  `none` means the operation is impossible
(releasing or writing through a guard the client does not hold) or hits a
fatal `unreachable!` arm in a guard destructor. -/
def stepSys : CellOp α → Sys α → Option (Sys α)
  | CellOp.borrow, s =>
    match s.cell.borrow with
    | (some _, c') => some ⟨c', s.sharedGuards + 1, s.exclGuards⟩
    | (none, c') => some ⟨c', s.sharedGuards, s.exclGuards⟩
  | CellOp.borrowMut, s =>
    match s.cell.borrow_mut with
    | (some _, c') => some ⟨c', s.sharedGuards, s.exclGuards + 1⟩
    | (none, c') => some ⟨c', s.sharedGuards, s.exclGuards⟩
  | CellOp.dropShared, s =>
    if s.sharedGuards = 0 then none
    else (Ref.drop s.cell).map fun c' => ⟨c', s.sharedGuards - 1, s.exclGuards⟩
  | CellOp.dropExcl, s =>
    if s.exclGuards = 0 then none
    else (RefMut.drop s.cell).map fun c' => ⟨c', s.sharedGuards, s.exclGuards - 1⟩
  | CellOp.writeExcl v, s =>
    if s.exclGuards = 0 then none
    else some ⟨RefMut.write s.cell v, s.sharedGuards, s.exclGuards⟩

/-- Runs a client history. -/
def runSys : List (CellOp α) → Sys α → Option (Sys α)
  | [], s => some s
  | op :: ops, s => (stepSys op s).bind (runSys ops)

/-- The coupling invariant between the borrow tag and the outstanding
guards: `Unused` means no guard, `Shared n` means exactly `n ≥ 1` shared
guards and no exclusive one, `Exclusive` means exactly one exclusive guard
and no shared one. -/
def goodSys (s : Sys α) : Prop :=
  (s.cell.state.get = RefState.Unused ∧ s.sharedGuards = 0 ∧ s.exclGuards = 0) ∨
  (s.cell.state.get = RefState.Shared s.sharedGuards ∧ 1 ≤ s.sharedGuards ∧ s.exclGuards = 0) ∨
  (s.cell.state.get = RefState.Exclusive ∧ s.sharedGuards = 0 ∧ s.exclGuards = 1)

/-! ## Helper lemmas about the `RefCell` state machine -/

theorem borrow_value (c : RefCell α) : (c.borrow).2.value = c.value := by
  cases hc : c.state.get <;> simp [RefCell.borrow, hc]

theorem borrow_mut_value (c : RefCell α) : (c.borrow_mut).2.value = c.value := by
  cases hc : c.state.get <;> simp [RefCell.borrow_mut, hc]

theorem ref_drop_value {c c' : RefCell α} (h : Ref.drop c = some c') :
    c'.value = c.value := by
  cases hc : c.state.get with
  | Unused => simp [Ref.drop, hc] at h
  | Exclusive => simp [Ref.drop, hc] at h
  | Shared n =>
    match n with
    | 0 => simp [Ref.drop, hc] at h
    | 1 => simp [Ref.drop, hc] at h; rw [← h]
    | n + 2 => simp [Ref.drop, hc] at h; rw [← h]

theorem refmut_drop_value {c c' : RefCell α} (h : RefMut.drop c = some c') :
    c'.value = c.value := by
  cases hc : c.state.get <;> simp [RefMut.drop, hc] at h
  rw [← h]

theorem stepSys_value {op : CellOp α} {s s' : Sys α} (hstep : stepSys op s = some s')
    (hnw : ∀ x, op ≠ CellOp.writeExcl x) : s'.cell.value = s.cell.value := by
  cases op with
  | borrow =>
    rw [show s' = ⟨(s.cell.borrow).2, if (s.cell.borrow).1.isSome then s.sharedGuards + 1 else s.sharedGuards, s.exclGuards⟩ from ?_]
    · exact borrow_value s.cell
    · revert hstep
      cases hb : s.cell.borrow with
      | mk fst snd => cases fst <;> simp [stepSys, hb] <;> intro h <;> exact h.symm
  | borrowMut =>
    rw [show s' = ⟨(s.cell.borrow_mut).2, s.sharedGuards, if (s.cell.borrow_mut).1.isSome then s.exclGuards + 1 else s.exclGuards⟩ from ?_]
    · exact borrow_mut_value s.cell
    · revert hstep
      cases hb : s.cell.borrow_mut with
      | mk fst snd => cases fst <;> simp [stepSys, hb] <;> intro h <;> exact h.symm
  | dropShared =>
    by_cases h0 : s.sharedGuards = 0
    · simp [stepSys, h0] at hstep
    · simp [stepSys, h0] at hstep
      obtain ⟨c', hc', rfl⟩ := hstep
      exact ref_drop_value hc'
  | dropExcl =>
    by_cases h0 : s.exclGuards = 0
    · simp [stepSys, h0] at hstep
    · simp [stepSys, h0] at hstep
      obtain ⟨c', hc', rfl⟩ := hstep
      exact refmut_drop_value hc'
  | writeExcl x => exact absurd rfl (hnw x)

theorem runSys_value {ops : List (CellOp α)} {s s' : Sys α} (hrun : runSys ops s = some s')
    (hnw : ∀ x, CellOp.writeExcl x ∉ ops) : s'.cell.value = s.cell.value := by
  induction ops generalizing s with
  | nil =>
    simp [runSys] at hrun
    rw [hrun]
  | cons op ops ih =>
    simp [runSys, Option.bind_eq_some] at hrun
    obtain ⟨s₁, h1, h2⟩ := hrun
    have hop : ∀ x, op ≠ CellOp.writeExcl x := by
      intro x hx
      exact hnw x (by simp [hx])
    have htail : ∀ x, CellOp.writeExcl x ∉ ops := by
      intro x hx
      exact hnw x (by simp [hx])
    rw [ih h2 htail, stepSys_value h1 hop]

theorem stepSys_good {op : CellOp α} {s s' : Sys α} (hg : goodSys s)
    (hstep : stepSys op s = some s') : goodSys s' := by
  cases op with
  | borrow =>
    rcases hg with ⟨h1, h2, h3⟩ | ⟨h1, h2, h3⟩ | ⟨h1, h2, h3⟩ <;>
        simp [stepSys, RefCell.borrow, h1] at hstep <;>
        rw [← hstep]
    · simp [goodSys, Cell.get, Cell.set, h2, h3]
    · simp [goodSys, Cell.get, Cell.set, h2, h3]
    · simp [goodSys, Cell.get, Cell.set, h2, h3]
      exact h1
  | borrowMut =>
    rcases hg with ⟨h1, h2, h3⟩ | ⟨h1, h2, h3⟩ | ⟨h1, h2, h3⟩ <;>
        simp [stepSys, RefCell.borrow_mut, h1] at hstep <;>
        rw [← hstep]
    · simp [goodSys, Cell.get, Cell.set, h2, h3]
    · simp [goodSys, Cell.get, Cell.set, h2, h3]
      exact Or.inr h1
    · simp [goodSys, Cell.get, Cell.set, h2, h3]
      exact h1
  | dropShared =>
    rcases hg with ⟨h1, h2, h3⟩ | ⟨h1, h2, h3⟩ | ⟨h1, h2, h3⟩
    · simp [stepSys, h2] at hstep
    · match hn : s.sharedGuards, h2 with
      | 1, _ =>
        rw [hn] at h1
        simp [stepSys, hn, Ref.drop, h1] at hstep
        rw [← hstep]
        simp [goodSys, Cell.get, Cell.set, h3]
      | n + 2, _ =>
        rw [hn] at h1
        simp [stepSys, hn, Ref.drop, h1] at hstep
        rw [← hstep]
        simp [goodSys, Cell.get, Cell.set, h3]
    · simp [stepSys, h2, Ref.drop, h1] at hstep
  | dropExcl =>
    rcases hg with ⟨h1, h2, h3⟩ | ⟨h1, h2, h3⟩ | ⟨h1, h2, h3⟩
    · simp [stepSys, h3] at hstep
    · simp [stepSys, h3] at hstep
    · simp [stepSys, h3, RefMut.drop, h1] at hstep
      rw [← hstep]
      simp [goodSys, Cell.get, Cell.set, h2]
  | writeExcl x =>
    rcases hg with ⟨h1, h2, h3⟩ | ⟨h1, h2, h3⟩ | ⟨h1, h2, h3⟩
    · simp [stepSys, h3] at hstep
    · simp [stepSys, h3] at hstep
    · simp [stepSys, h3, RefMut.write] at hstep
      rw [← hstep]
      simp [goodSys, Cell.get, Cell.set, RefMut.write, h2]
      exact h1

theorem runSys_good {ops : List (CellOp α)} {s s' : Sys α} (hg : goodSys s)
    (hrun : runSys ops s = some s') : goodSys s' := by
  induction ops generalizing s with
  | nil =>
    simp [runSys] at hrun
    rw [← hrun]
    exact hg
  | cons op ops ih =>
    simp [runSys, Option.bind_eq_some] at hrun
    obtain ⟨s₁, h1, h2⟩ := hrun
    exact ih (stepSys_good hg h1) h2

theorem goodSys_init (v : α) : goodSys (initSys v) := by
  left
  exact ⟨rfl, rfl, rfl⟩

/-! ## Claim theorems: `RefCell` and `Cell` -/

/-- C2: in every state reachable by a history of borrow requests, guard
releases and guard writes from `RefCell::new(v)`, at most one exclusive
guard is outstanding, an outstanding exclusive guard excludes all shared
guards, and while an exclusive guard is outstanding every `borrow` and
`borrow_mut` call is denied (returns `none`) — until that guard is dropped,
which is the only transition out of `Exclusive`. -/
theorem refcell_exclusive_invariant (v : α) (ops : List (CellOp α)) (s : Sys α)
    (hrun : runSys ops (initSys v) = some s) :
    s.exclGuards ≤ 1 ∧
    (1 ≤ s.exclGuards → s.sharedGuards = 0) ∧
    (1 ≤ s.exclGuards → (s.cell.borrow).1 = none ∧ (s.cell.borrow_mut).1 = none) := by
  have hg := runSys_good (goodSys_init v) hrun
  rcases hg with ⟨h1, h2, h3⟩ | ⟨h1, h2, h3⟩ | ⟨h1, h2, h3⟩
  · exact ⟨by omega, fun h => by omega, fun h => absurd h (by omega)⟩
  · exact ⟨by omega, fun h => by omega, fun h => absurd h (by omega)⟩
  · refine ⟨by omega, fun _ => h2, fun _ => ?_⟩
    constructor <;> simp [RefCell.borrow, RefCell.borrow_mut, h1]

/-- Witness for C2: after the single-operation history `[borrowMut]` the
cell is `Exclusive` with one exclusive guard outstanding, and both borrow
requests are denied. -/
theorem refcell_exclusive_invariant_witness :
    (⟨⟨0, Cell.new RefState.Exclusive⟩, 0, 1⟩ : Sys Nat).exclGuards ≤ 1 ∧
    (1 ≤ (⟨⟨0, Cell.new RefState.Exclusive⟩, 0, 1⟩ : Sys Nat).exclGuards →
      (⟨⟨0, Cell.new RefState.Exclusive⟩, 0, 1⟩ : Sys Nat).sharedGuards = 0) ∧
    (1 ≤ (⟨⟨0, Cell.new RefState.Exclusive⟩, 0, 1⟩ : Sys Nat).exclGuards →
      ((⟨⟨0, Cell.new RefState.Exclusive⟩, 0, 1⟩ : Sys Nat).cell.borrow).1 = none ∧
      ((⟨⟨0, Cell.new RefState.Exclusive⟩, 0, 1⟩ : Sys Nat).cell.borrow_mut).1 = none) :=
  refcell_exclusive_invariant 0 [CellOp.borrowMut] _ (by decide)

/-- C3: `borrow` and `borrow_mut` implement exactly the specified state
machine: the initial state is `Unused`; `borrow` moves `Unused → Shared 1`
and `Shared n → Shared (n+1)` and succeeds, and is denied without a
transition from `Exclusive`; `borrow_mut` moves `Unused → Exclusive` and
succeeds, and is denied without a transition from `Shared _` and
`Exclusive`. -/
theorem refcell_state_machine (v : α) (c : RefCell α) (n : Nat) (_hn : 1 ≤ n) :
    ((RefCell.new v).state.get = RefState.Unused) ∧
    (c.state.get = RefState.Unused →
      c.borrow = (some (), { c with state := c.state.set (RefState.Shared 1) }) ∧
      c.borrow_mut = (some (), { c with state := c.state.set RefState.Exclusive })) ∧
    (c.state.get = RefState.Shared n →
      c.borrow = (some (), { c with state := c.state.set (RefState.Shared (n + 1)) }) ∧
      c.borrow_mut = (none, c)) ∧
    (c.state.get = RefState.Exclusive →
      c.borrow = (none, c) ∧ c.borrow_mut = (none, c)) := by
  refine ⟨rfl, ?_, ?_, ?_⟩ <;> intro h <;>
    exact ⟨by simp [RefCell.borrow, h], by simp [RefCell.borrow_mut, h]⟩

/-- Witness for C3: from a fresh cell, `borrow` yields a guard and moves the
state to `Shared 1`. -/
theorem refcell_state_machine_witness :
    (RefCell.new (0 : Nat)).borrow =
      (some (), { RefCell.new (0 : Nat) with
        state := (RefCell.new (0 : Nat)).state.set (RefState.Shared 1) }) :=
  ((refcell_state_machine 0 (RefCell.new 0) 1 (by decide)).2.1 rfl).1

/-- C4: dropping a shared guard moves `Shared 1 → Unused` and
`Shared (n+2) → Shared (n+1)`; dropping it with the cell `Unused` or
`Exclusive` is fatal (`none`, the `unreachable!` panic).  Dropping an
exclusive guard moves `Exclusive → Unused`; with the cell `Unused` or
`Shared _` it is fatal.  No fatal case is silently recovered. -/
theorem guard_drop_transitions (c : RefCell α) (n : Nat) :
    (c.state.get = RefState.Shared 1 →
      Ref.drop c = some { c with state := c.state.set RefState.Unused }) ∧
    (c.state.get = RefState.Shared (n + 2) →
      Ref.drop c = some { c with state := c.state.set (RefState.Shared (n + 1)) }) ∧
    (c.state.get = RefState.Unused → Ref.drop c = none) ∧
    (c.state.get = RefState.Exclusive → Ref.drop c = none) ∧
    (c.state.get = RefState.Exclusive →
      RefMut.drop c = some { c with state := c.state.set RefState.Unused }) ∧
    (c.state.get = RefState.Unused → RefMut.drop c = none) ∧
    (∀ m, c.state.get = RefState.Shared m → RefMut.drop c = none) := by
  refine ⟨?_, ?_, ?_, ?_, ?_, ?_, ?_⟩
  · intro h
    simp [Ref.drop, h]
  · intro h
    simp [Ref.drop, h]
  · intro h
    simp [Ref.drop, h]
  · intro h
    simp [Ref.drop, h]
  · intro h
    simp [RefMut.drop, h]
  · intro h
    simp [RefMut.drop, h]
  · intro m h
    simp [RefMut.drop, h]

/-- Witness for C4: dropping the shared guard of a `Shared 1` cell restores
`Unused`. -/
theorem guard_drop_transitions_witness :
    Ref.drop (⟨5, Cell.new (RefState.Shared 1)⟩ : RefCell Nat) =
      some { (⟨5, Cell.new (RefState.Shared 1)⟩ : RefCell Nat) with
        state := (Cell.new (RefState.Shared 1)).set RefState.Unused } :=
  (guard_drop_transitions (⟨5, Cell.new (RefState.Shared 1)⟩ : RefCell Nat) 0).1 rfl

/-- C5: a denied borrow request (either kind) returns `none` immediately —
the result is an ordinary `Option`, not an error or a wait — and leaves the
cell (state tag and value alike) unchanged. -/
theorem denied_borrow_leaves_cell_unchanged (c : RefCell α) :
    ((c.borrow).1 = none → (c.borrow).2 = c) ∧
    ((c.borrow_mut).1 = none → (c.borrow_mut).2 = c) := by
  constructor <;> cases hc : c.state.get <;>
    simp [RefCell.borrow, RefCell.borrow_mut, hc]

/-- Witness for C5: on an `Exclusive` cell, `borrow` is denied and the cell
is returned unchanged. -/
theorem denied_borrow_leaves_cell_unchanged_witness :
    ((⟨7, Cell.new RefState.Exclusive⟩ : RefCell Nat).borrow).2 =
      (⟨7, Cell.new RefState.Exclusive⟩ : RefCell Nat) :=
  (denied_borrow_leaves_cell_unchanged (⟨7, Cell.new RefState.Exclusive⟩ : RefCell Nat)).1 rfl

/-- C6: the concrete scenario on `RefCell::new(20)`: a shared borrow
succeeds and reads 20, and dropping the guard restores the fresh `Unused`
cell; a mutable borrow succeeds, writing 30 through it and dropping it
yields the `Unused` cell holding 30; a further shared borrow yields a guard
with state `Shared 1`; `borrow_mut` while that guard is live is denied with
the cell unchanged (still `Shared 1`); and reading through the live guard
yields 30 — the write through the exclusive guard is visible to subsequent
reads. -/
theorem refcell_scenario :
    ((RefCell.new (20 : Nat)).borrow.1 = some ()) ∧
    (Ref.deref (RefCell.new (20 : Nat)).borrow.2 = 20) ∧
    (Ref.drop (RefCell.new (20 : Nat)).borrow.2 = some (RefCell.new 20)) ∧
    ((RefCell.new (20 : Nat)).borrow_mut.1 = some ()) ∧
    (RefMut.drop (RefMut.write (RefCell.new (20 : Nat)).borrow_mut.2 30) =
      some (RefCell.new 30)) ∧
    ((RefCell.new (30 : Nat)).borrow.1 = some ()) ∧
    ((RefCell.new (30 : Nat)).borrow.2.state.get = RefState.Shared 1) ∧
    ((RefCell.new (30 : Nat)).borrow.2.borrow_mut =
      (none, (RefCell.new (30 : Nat)).borrow.2)) ∧
    (Ref.deref (RefCell.new (30 : Nat)).borrow.2 = 30) := by
  decide

/-- C9: `Cell::new(v).get() == v`, and after `set(v2)` (which replaces the
value unconditionally and is total — it never fails), `get()` returns
`v2`. -/
theorem cell_new_get_set (v v2 : α) (c : Cell α) :
    (Cell.new v).get = v ∧ (c.set v2).get = v2 :=
  ⟨rfl, rfl⟩

/-- C10: frame property — `borrow`, `borrow_mut` and both guard
destructors never change the wrapped value, and a whole history containing
no write through an exclusive guard leaves the value as it was at
construction. -/
theorem refcell_frame_no_write (c : RefCell α) (v : α) (ops : List (CellOp α)) (s : Sys α)
    (hrun : runSys ops (initSys v) = some s)
    (hnw : ∀ x, CellOp.writeExcl x ∉ ops) :
    (c.borrow).2.value = c.value ∧
    (c.borrow_mut).2.value = c.value ∧
    (∀ c', Ref.drop c = some c' → c'.value = c.value) ∧
    (∀ c', RefMut.drop c = some c' → c'.value = c.value) ∧
    s.cell.value = v := by
  refine ⟨borrow_value c, borrow_mut_value c, fun c' h => ref_drop_value h,
    fun c' h => refmut_drop_value h, ?_⟩
  have := runSys_value hrun hnw
  simpa [initSys, RefCell.new] using this

/-- Witness for C10: the history `[borrow, dropShared, borrowMut]` from
`RefCell::new(9)` leaves the value 9 untouched. -/
theorem refcell_frame_no_write_witness :
    ((⟨3, Cell.new RefState.Unused⟩ : RefCell Nat).borrow).2.value = 3 ∧
    ((⟨3, Cell.new RefState.Unused⟩ : RefCell Nat).borrow_mut).2.value = 3 ∧
    (∀ c', Ref.drop (⟨3, Cell.new RefState.Unused⟩ : RefCell Nat) = some c' → c'.value = 3) ∧
    (∀ c', RefMut.drop (⟨3, Cell.new RefState.Unused⟩ : RefCell Nat) = some c' → c'.value = 3) ∧
    (⟨⟨9, Cell.new RefState.Exclusive⟩, 0, 1⟩ : Sys Nat).cell.value = 9 :=
  refcell_frame_no_write (⟨3, Cell.new RefState.Unused⟩ : RefCell Nat) 9
    [CellOp.borrow, CellOp.dropShared, CellOp.borrowMut] _ (by decide)
    (by intro x hx; simp at hx)

/-! ## Helper lemmas about `Rc` traces -/

theorem okTrace_nil_of_zero {ops : List RcOp} (h : okTrace 0 ops = true) : ops = [] := by
  cases ops with
  | nil => rfl
  | cons op ops => cases op <;> simp [okTrace] at h

theorem finalCount_eq {ops : List RcOp} : ∀ {c : Nat}, okTrace c ops = true →
    finalCount c ops + countDrops ops = c + countClones ops := by
  induction ops with
  | nil =>
    intro c _
    simp [finalCount, countDrops, countClones]
  | cons op ops ih =>
    intro c h
    cases op with
    | clone =>
      simp [okTrace] at h
      have := ih h.2
      simp only [finalCount, countDrops, countClones]
      omega
    | drop =>
      simp [okTrace] at h
      have := ih h.2
      have h1 := h.1
      simp only [finalCount, countDrops, countClones]
      omega

theorem usize_max_lt_size : USIZE_MAX < USIZE_SIZE := by
  simp only [USIZE_MAX, USIZE_SIZE]
  have : 1 ≤ 2 ^ 64 := Nat.one_le_two_pow
  omega

theorem usize_wrap_add_one {c : Nat} (h : c < USIZE_MAX) :
    (c + 1) % USIZE_SIZE = c + 1 := by
  have := usize_max_lt_size
  exact Nat.mod_eq_of_lt (by omega)

theorem usize_wrap_sub_one {c : Nat} (h1 : 1 ≤ c) (h2 : c ≤ USIZE_MAX) :
    (c + USIZE_SIZE - 1) % USIZE_SIZE = c - 1 := by
  have := usize_max_lt_size
  have heq : c + USIZE_SIZE - 1 = (c - 1) + USIZE_SIZE := by omega
  rw [heq, Nat.add_mod_right]
  exact Nat.mod_eq_of_lt (by omega)

theorem runOps_spec {α : Type} (ops : List RcOp) :
    ∀ (c : Nat) (h : RcHeap α) (addr : Nat) (v : α),
      h.blocks addr = some ⟨v, Cell.new c⟩ → 1 ≤ c → c ≤ USIZE_MAX → okTrace c ops = true →
      ∃ h' : RcHeap α, runOps addr ops h = Except.ok h' ∧
        (1 ≤ finalCount c ops →
          h'.blocks addr = some ⟨v, Cell.new (finalCount c ops)⟩ ∧ h'.frees = h.frees) ∧
        (finalCount c ops = 0 →
          h'.blocks addr = none ∧ h'.frees = h.frees ++ [addr]) := by
  induction ops with
  | nil =>
    intro c h addr v hb hc _ _
    refine ⟨h, rfl, fun _ => ⟨hb, rfl⟩, fun h0 => ?_⟩
    simp [finalCount] at h0
    omega
  | cons op ops ih =>
    intro c h addr v hb hc hcm hok
    cases op with
    | clone =>
      simp [okTrace] at hok
      obtain ⟨⟨h1, h2⟩, h3⟩ := hok
      have hstep : Rc.clone ⟨addr⟩ h = Except.ok (⟨addr⟩,
          { h with blocks := (Function.update h.blocks addr (some ⟨v, Cell.new (c + 1)⟩)) }) := by
        simp only [Rc.clone, hb, Cell.get, Cell.set, Cell.new]
        rw [usize_wrap_add_one h2]
      have hb' : (Function.update h.blocks addr (some ⟨v, Cell.new (c + 1)⟩)) addr =
          some ⟨v, Cell.new (c + 1)⟩ := Function.update_same addr _ h.blocks
      have hcm' : c + 1 ≤ USIZE_MAX := by omega
      obtain ⟨h', hrun', hlive, hdead⟩ :=
        ih (c + 1)
          { h with blocks := (Function.update h.blocks addr (some ⟨v, Cell.new (c + 1)⟩)) }
          addr v hb' (by omega) hcm' h3
      refine ⟨h', ?_, ?_, ?_⟩
      · simp only [runOps, hstep]
        exact hrun'
      · intro hfc
        exact hlive hfc
      · intro hfc
        exact hdead hfc
    | drop =>
      simp [okTrace] at hok
      obtain ⟨h1, h3⟩ := hok
      by_cases hc1 : c = 1
      · subst hc1
        simp only [Nat.sub_self] at h3
        have hnil := okTrace_nil_of_zero h3
        subst hnil
        have hstep : Rc.drop ⟨addr⟩ h = Except.ok
            { h with blocks := (Function.update h.blocks addr none),
                     frees := h.frees ++ [addr] } := by
          simp only [Rc.drop, hb]
          rw [if_pos (by simp [Cell.get, Cell.new])]
        refine ⟨{ h with blocks := (Function.update h.blocks addr none),
                         frees := h.frees ++ [addr] }, ?_, fun hfc => ?_, fun _ => ?_⟩
        · simp only [runOps, hstep]
        · simp [finalCount] at hfc
        · exact ⟨Function.update_same addr none h.blocks, rfl⟩
      · have hc2 : 2 ≤ c := by omega
        have hstep : Rc.drop ⟨addr⟩ h = Except.ok
            { h with blocks := (Function.update h.blocks addr (some ⟨v, Cell.new (c - 1)⟩)) } := by
          simp only [Rc.drop, hb, Cell.get, Cell.set, Cell.new]
          rw [if_neg (by omega), usize_wrap_sub_one (by omega) hcm]
        have hb' : (Function.update h.blocks addr (some ⟨v, Cell.new (c - 1)⟩)) addr =
            some ⟨v, Cell.new (c - 1)⟩ := Function.update_same addr _ h.blocks
        have hcm' : c - 1 ≤ USIZE_MAX := by omega
        obtain ⟨h', hrun', hlive, hdead⟩ :=
          ih (c - 1)
            { h with blocks := (Function.update h.blocks addr (some ⟨v, Cell.new (c - 1)⟩)) }
            addr v hb' (by omega) hcm' h3
        refine ⟨h', ?_, ?_, ?_⟩
        · simp only [runOps, hstep]
          exact hrun'
        · intro hfc
          exact hlive hfc
        · intro hfc
          exact hdead hfc

/-! ## Claim theorems: `Rc` -/

/-- C1: after `Rc::new(v)` and any interleaving of N clones and M drops in
which every operation acts on a live instance (so at each proper point the
drops performed do not outnumber the clones performed), if M ≤ N the block
is still allocated with stored count `1 + N - M` and nothing has been
freed; if M = N + 1 (the original and every clone dropped) the block is
deallocated and the free log contains exactly one entry for it — freed
exactly once, never double-freed.  Moreover a successful drop deallocates
if and only if it observes a stored count of 1. -/
theorem rc_count_invariant (v : α) (ops : List RcOp) (hok : okTrace 1 ops = true) :
    (∃ h2 : RcHeap α,
      runOps (Rc.new v (RcHeap.empty α)).1.inner ops (Rc.new v (RcHeap.empty α)).2 =
        Except.ok h2 ∧
      (countDrops ops ≤ countClones ops →
        h2.blocks (Rc.new v (RcHeap.empty α)).1.inner =
          some ⟨v, Cell.new (1 + countClones ops - countDrops ops)⟩ ∧ h2.frees = []) ∧
      (countDrops ops = countClones ops + 1 →
        h2.blocks (Rc.new v (RcHeap.empty α)).1.inner = none ∧
        h2.frees = [(Rc.new v (RcHeap.empty α)).1.inner])) ∧
    (∀ (g g' : RcHeap α) (r : Rc) (inner : RcInner α), g.blocks r.inner = some inner →
      Rc.drop r g = Except.ok g' →
      (g'.frees = g.frees ++ [r.inner] ↔ inner.references.get = 1)) := by
  constructor
  · have hb : (Rc.new v (RcHeap.empty α)).2.blocks (Rc.new v (RcHeap.empty α)).1.inner =
        some ⟨v, Cell.new 1⟩ := by
      simp [Rc.new, RcHeap.empty, Function.update_same]
    obtain ⟨h2, hrun, hlive, hdead⟩ :=
      runOps_spec ops 1 (Rc.new v (RcHeap.empty α)).2 (Rc.new v (RcHeap.empty α)).1.inner v
        hb (le_refl 1) (by norm_num [USIZE_MAX]) hok
    have hfc := finalCount_eq hok
    refine ⟨h2, hrun, ?_, ?_⟩
    · intro hm
      have h1 : 1 ≤ finalCount 1 ops := by omega
      have h2eq : 1 + countClones ops - countDrops ops = finalCount 1 ops := by omega
      rw [h2eq]
      exact hlive h1
    · intro hm
      have h0 : finalCount 1 ops = 0 := by omega
      obtain ⟨hblocks, hfrees⟩ := hdead h0
      exact ⟨hblocks, by simpa [Rc.new, RcHeap.empty] using hfrees⟩
  · intro g g' r inner hbg hdrop
    by_cases h1 : inner.references.get = 1
    · simp only [Rc.drop, hbg] at hdrop
      rw [if_pos h1] at hdrop
      simp only [Except.ok.injEq] at hdrop
      rw [← hdrop]
      simp [h1]
    · simp only [Rc.drop, hbg] at hdrop
      rw [if_neg h1] at hdrop
      simp only [Except.ok.injEq] at hdrop
      rw [← hdrop]
      simp [h1]

/-- Witness for C1: the history clone, drop, drop (N = 1, M = 2 = N + 1)
from `Rc::new(5)` runs without a fatal error and ends with the block freed,
the free log holding exactly one entry. -/
theorem rc_count_invariant_witness :
    okTrace 1 [RcOp.clone, RcOp.drop, RcOp.drop] = true ∧
    ∃ h2 : RcHeap Nat,
      runOps (Rc.new (5 : Nat) (RcHeap.empty Nat)).1.inner [RcOp.clone, RcOp.drop, RcOp.drop]
        (Rc.new (5 : Nat) (RcHeap.empty Nat)).2 = Except.ok h2 ∧
      h2.blocks (Rc.new (5 : Nat) (RcHeap.empty Nat)).1.inner = none ∧
      h2.frees = [(Rc.new (5 : Nat) (RcHeap.empty Nat)).1.inner] := by
  have hok : okTrace 1 [RcOp.clone, RcOp.drop, RcOp.drop] = true := by
    simp [okTrace, USIZE_MAX]
  refine ⟨hok, ?_⟩
  obtain ⟨⟨h2, hrun, _, hdead⟩, _⟩ :=
    rc_count_invariant (5 : Nat) [RcOp.clone, RcOp.drop, RcOp.drop] hok
  obtain ⟨hblocks, hfrees⟩ := hdead (by simp [countDrops, countClones])
  exact ⟨h2, hrun, hblocks, hfrees⟩

/-- C7: the claim says a clone that would push the count past `USIZE_MAX`,
or a drop that would take it below zero, makes the program abort rather
than continue with a silently wrapped count.  The code has no such guard:
the increment at rc.rs:40 and the decrement at rc.rs:65 are unchecked, so
(absent compiled-in overflow checks) on a block whose count is `USIZE_MAX`
a clone succeeds and stores the wrapped count 0, and on a live block whose
count is 0 a drop succeeds and stores the wrapped count `USIZE_MAX`,
freeing nothing — exactly the silent wrap the claim asserts cannot
happen. -/
theorem rc_overflow_wraps_silently :
    ((Rc.clone (⟨0⟩ : Rc)
        (⟨fun _ => some ⟨(5 : Nat), Cell.new USIZE_MAX⟩, 1, []⟩ : RcHeap Nat)).map
      (fun p => (p.2.blocks 0).map (fun i => i.references.get)) = Except.ok (some 0)) ∧
    ((Rc.drop (⟨0⟩ : Rc)
        (⟨fun _ => some ⟨(5 : Nat), Cell.new 0⟩, 1, []⟩ : RcHeap Nat)).map
      (fun h' => ((h'.blocks 0).map (fun i => i.references.get), h'.frees)) =
      Except.ok (some USIZE_MAX, [])) := by
  constructor
  · simp [Rc.clone, Cell.get, Cell.new, Cell.set, Function.update, Except.map,
      USIZE_MAX, USIZE_SIZE]
  · simp [Rc.drop, Cell.get, Cell.new, Cell.set, Function.update, Except.map,
      USIZE_MAX, USIZE_SIZE]

/-- C8: `ptr_eq` is identity comparison of the block address — true exactly
when the two instances reference the same block; every successful clone is
`ptr_eq` to the instance it was cloned from; and two separate `Rc::new`
calls with the same value yield instances that are not `ptr_eq`, the second
allocation being at a fresh address. -/
theorem rc_ptr_eq_identity (x : α) (h : RcHeap α) (a b : Rc) :
    (Rc.ptr_eq a b = true ↔ a.inner = b.inner) ∧
    (∀ (g g' : RcHeap α) (a' : Rc), Rc.clone a g = Except.ok (a', g') →
      Rc.ptr_eq a a' = true) ∧
    (Rc.ptr_eq (Rc.new x h).1 (Rc.new x (Rc.new x h).2).1 = false) := by
  refine ⟨?_, ?_, ?_⟩
  · simp [Rc.ptr_eq]
  · intro g g' a' hclone
    cases hbg : g.blocks a.inner with
    | none => simp [Rc.clone, hbg] at hclone
    | some inner =>
      simp only [Rc.clone, hbg, Except.ok.injEq, Prod.mk.injEq] at hclone
      rw [← hclone.1]
      simp [Rc.ptr_eq]
  · simp [Rc.new, Rc.ptr_eq]

/-- Witness for C8: cloning `Rc::new(5)` in the empty heap yields an
instance `ptr_eq` to the original. -/
theorem rc_ptr_eq_identity_witness :
    Rc.ptr_eq (Rc.new (5 : Nat) (RcHeap.empty Nat)).1
      (Rc.new (5 : Nat) (RcHeap.empty Nat)).1 = true :=
  (rc_ptr_eq_identity (5 : Nat) (RcHeap.empty Nat) (Rc.new (5 : Nat) (RcHeap.empty Nat)).1
    (Rc.new (5 : Nat) (RcHeap.empty Nat)).1).1.mpr rfl

end SmartPointers
